import Mathlib

/-!
Shallow embedding of the fund-watcher program (Go): the primary
implementation in main.go and the older near-duplicate in src/Fund.go.

Modelling conventions:
* Go float64 values are modelled as exact rationals (ℚ).  The one place
  where IEEE semantics is observable in this program is the final division
  in FundResult.avg, which Go performs unguarded; it is modelled by fdiv,
  which returns NaN / +Inf / -Inf on a zero divisor exactly as IEEE-754
  division of finite operands does (the sign of an IEEE zero is not
  representable in ℚ; all zero divisors are treated as +0, which is the
  value Go produces when summing the weights of this program's inputs).
* strconv.ParseFloat is modelled for the plain decimal forms
  [+|-] digits [. digits] [e|E [+|-] digits] that the quote provider's
  changePercent strings use; the exotic accepted forms (hex mantissas,
  "inf"/"nan", digit-separating underscores) are outside the model, which
  rejects them like any other unparsable string.  Parsing is split into a
  decidable recogniser (parseDec) and a ℚ valuation (ratOfDec).
* sort.Slice in NewFundResult is modelled by the insertion sort that Go's
  sort.Slice performs on slices shorter than the pdqsort threshold
  (12 elements); the comparator is taken verbatim from the source
  (items[i].Weight >= items[j].Weight, a non-strict "less" function).
* The network fetch GetFund is I/O and is abstracted as a function
  parameter fetch : String → Fund.
* The fan-out coordinator GetFundResult in main.go launches one goroutine
  per request and a single collector draining an unbuffered channel, so
  the collected slice is the requests' items in goroutine completion
  order — an arbitrary permutation of the request list.  Its observable
  behaviour is modelled by the relation GetFundResultPossible, which holds
  of every result the concurrent code can return.
* os.ReadFile in LoadFundIds is abstracted by passing the file contents as
  a string; a missing file (its error is discarded) yields "".  The
  unguarded i[1] indexing in LoadFundIds is a run-time panic when the
  split has fewer than two fields; LoadFundIds therefore returns an
  Option, with none modelling the panic.
-/

namespace FundWatcher

/-- Digit test of strconv's readFloat: '0' <= c && c <= '9'. -/
def isDig (c : Char) : Bool := '0' ≤ c && c ≤ '9'

/-- Value of a string of decimal digits (most significant first). -/
def digitsVal (cs : List Char) : ℕ := cs.foldl (fun a c => a * 10 + (c.toNat - 48)) 0

/-- Result of the decidable stage of the ParseFloat model: sign, integer
part, fraction digits (value and count) and signed decimal exponent. -/
structure DecParse where
  neg : Bool
  intPart : ℕ
  fracPart : ℕ
  fracLen : ℕ
  exp : ℤ
deriving DecidableEq

/-- Exponent digits: nonempty, all decimal. -/
def parseExpDigits (cs : List Char) : Option ℤ :=
  if cs ≠ [] ∧ cs.all isDig then some (digitsVal cs) else none

/-- Optionally signed exponent digits. -/
def parseSignedExp (cs : List Char) : Option ℤ :=
  match cs with
  | [] => none
  | c :: rest =>
      if c = '+' then parseExpDigits rest
      else if c = '-' then (parseExpDigits rest).map Neg.neg
      else parseExpDigits (c :: rest)

/-- The optional e/E exponent suffix; the whole remainder must be it. -/
def parseExpPart (cs : List Char) : Option ℤ :=
  match cs with
  | [] => some 0
  | c :: rest => if c = 'e' ∨ c = 'E' then parseSignedExp rest else none

/-- Mantissa and exponent after the optional sign: digits with an optional
dot (at least one digit on one side of the dot), then the exponent. -/
def parseDecUnsigned (neg : Bool) (cs : List Char) : Option DecParse :=
  let ip := cs.takeWhile isDig
  let rest1 := cs.dropWhile isDig
  match rest1 with
  | c :: rest2 =>
      if c = '.' then
        let fp := rest2.takeWhile isDig
        let rest3 := rest2.dropWhile isDig
        if ip = [] ∧ fp = [] then none
        else (parseExpPart rest3).map (fun e => ⟨neg, digitsVal ip, digitsVal fp, fp.length, e⟩)
      else if ip = [] then none
      else (parseExpPart rest1).map (fun e => ⟨neg, digitsVal ip, 0, 0, e⟩)
  | [] => if ip = [] then none else some ⟨neg, digitsVal ip, 0, 0, 0⟩

/-- Decidable stage of the strconv.ParseFloat model (decimal forms). -/
def parseDec (cs : List Char) : Option DecParse :=
  match cs with
  | [] => none
  | c :: rest =>
      if c = '+' then parseDecUnsigned false rest
      else if c = '-' then parseDecUnsigned true rest
      else parseDecUnsigned false (c :: rest)

/-- Exact value of a parsed decimal. -/
def ratOfDec (d : DecParse) : ℚ :=
  (if d.neg then (-1 : ℚ) else 1) * ((d.intPart : ℚ) + (d.fracPart : ℚ) / (10 : ℚ) ^ d.fracLen)
    * (10 : ℚ) ^ d.exp

/-- Model of strconv.ParseFloat (decimal forms), none on a parse error. -/
def parseFloatQ (s : String) : Option ℚ := (parseDec s.toList).map ratOfDec

/-- Result of an IEEE division of exact (finite) operands: either a finite
exact value, or the non-finite outcomes of a zero divisor. -/
inductive GoFloat where
  | nan : GoFloat
  | inf : GoFloat
  | neginf : GoFloat
  | val : ℚ → GoFloat
deriving DecidableEq

/-- Whether a GoFloat is a finite numeric value. -/
def GoFloat.isFinite : GoFloat → Bool
  | .val _ => true
  | _ => false

/-- IEEE-754 division of finite exact operands (zero divisor taken as +0). -/
def fdiv (a b : ℚ) : GoFloat :=
  if b = 0 then (if a = 0 then .nan else if 0 < a then .inf else .neginf)
  else .val (a / b)

/-- type Fund: the decoded quote record (main.go lines 31-36). -/
structure Fund where
  FCODE : String
  SHORTNAME : String
  GZTIME : String
  GSZZL : String
deriving DecidableEq

/-- type FundItem: a Fund with the weight of its request (lines 38-41). -/
structure FundItem extends Fund where
  Weight : ℚ
deriving DecidableEq

/-- type FundId: one identifier,weight request pair (lines 24-27). -/
structure FundId where
  Id : String
  Weight : ℚ
deriving DecidableEq

/-- type FundResult: the report (lines 43-46). -/
structure FundResult where
  Funds : List FundItem
  Avg : GoFloat
deriving DecidableEq

/-- func (p FundItem) Zzl(): ParseFloat of GSZZL, a parse error ignored so
the zero value of the float64 return is kept (main.go lines 68-71). -/
def FundItem.Zzl (p : FundItem) : ℚ := (parseFloatQ p.GSZZL).getD 0

/-- The total accumulator of FundResult.avg: sum of Zzl()*Weight. -/
def totalZzl (funds : List FundItem) : ℚ :=
  funds.foldl (fun a f => a + f.Zzl * f.Weight) 0

/-- The totalWeight accumulator of FundResult.avg: sum of Weight. -/
def totalWeight (funds : List FundItem) : ℚ :=
  funds.foldl (fun a f => a + f.Weight) 0

/-- func (p FundResult) avg(): total / totalWeight, division unguarded
(main.go lines 58-66). -/
def FundResult.avg (p : FundResult) : GoFloat :=
  fdiv (totalZzl p.Funds) (totalWeight p.Funds)

/-- The sort.Slice comparator of NewFundResult (main.go line 51):
less(i, j) = items[i].Weight >= items[j].Weight. -/
def less (a b : FundItem) : Bool := decide (b.Weight ≤ a.Weight)

/-- One bubbling pass of Go's insertion sort, seen from the right end of
the sorted prefix: the new element x moves left past e while lt x e. -/
def bubble (lt : α → α → Bool) (x : α) : List α → List α
  | [] => [x]
  | e :: rest => if lt x e then e :: bubble lt x rest else x :: e :: rest

/-- Insert x coming from the right end of the prefix acc (in slice order). -/
def insertRight (lt : α → α → Bool) (x : α) (acc : List α) : List α :=
  (bubble lt x acc.reverse).reverse

/-- The outer loop of Go's insertionSort: grow the sorted prefix. -/
def sortLoop (lt : α → α → Bool) : List α → List α → List α
  | acc, [] => acc
  | acc, x :: xs => sortLoop lt (insertRight lt x acc) xs

/-- Model of sort.Slice: the insertion sort Go's sort.Slice runs on slices
below the pdqsort threshold, with the caller's comparator. -/
def goSort (lt : α → α → Bool) (l : List α) : List α := sortLoop lt [] l

/-- func NewFundResult (main.go lines 48-56): sort the items in place with
the >= comparator, store them, then compute Avg with the method avg. -/
def NewFundResult (items : List FundItem) : FundResult :=
  let sorted := goSort less items
  let base : FundResult := { Funds := sorted, Avg := GoFloat.val 0 }
  { Funds := base.Funds, Avg := base.avg }

/-- The body of GetFundRoutine (main.go lines 168-173): fetch the fund and
pair it with the request's weight. -/
def toFundItem (fetch : String → Fund) (f : FundId) : FundItem :=
  { toFund := fetch f.Id, Weight := f.Weight }

/-- func GetFundResult (main.go lines 146-166), as a relation: one
goroutine per request sends its FundItem over an unbuffered channel and a
single collector appends each received item, so the collected slice is the
requests' items in completion order — some permutation of the request
list.  r is a possible return value iff some completion order yields it. -/
def GetFundResultPossible (fetch : String → Fund) (fundIds : List FundId)
    (r : FundResult) : Prop :=
  ∃ completion : List FundId, List.Perm completion fundIds ∧
    r = NewFundResult (completion.map (toFundItem fetch))

/-- Model of strings.Split with a one-character separator, as the first
chunk plus the remaining chunks. -/
def splitOnCharCore (sep : Char) : List Char → List Char × List (List Char)
  | [] => ([], [])
  | c :: rest =>
      let r := splitOnCharCore sep rest
      if c = sep then ([], r.1 :: r.2) else (c :: r.1, r.2)

/-- strings.Split(s, sep) for a one-character sep; never empty. -/
def splitOnChar (sep : Char) (cs : List Char) : List (List Char) :=
  (splitOnCharCore sep cs).1 :: (splitOnCharCore sep cs).2

/-- The body of the LoadFundIds loop for one non-blank line (main.go lines
139-142): split on ",", read i[0] and i[1] (none models the index-out-of-
range panic when there is no second field), ParseFloat error ignored. -/
def parseLine (v : List Char) : Option FundId :=
  match splitOnChar ',' v with
  | a :: b :: _ => some ⟨String.mk a, (parseFloatQ (String.mk b)).getD 0⟩
  | _ => none

/-- The LoadFundIds loop (main.go lines 135-143): blank lines skipped,
other lines parsed; none models the panic aborting the whole call. -/
def loadLines : List (List Char) → Option (List FundId)
  | [] => some []
  | v :: rest =>
      if v = [] then loadLines rest
      else
        match parseLine v with
        | none => none
        | some x => (loadLines rest).map (fun r => x :: r)

/-- func LoadFundIds (main.go lines 127-145) with the file contents passed
in (ReadFile's error is discarded, so a missing file reads as ""). -/
def LoadFundIds (contents : String) : Option (List FundId) :=
  loadLines (splitOnChar '\n' contents.toList)

/-- File contents whose lines are the given list: lines joined by '\n'. -/
def joinLines : List (List Char) → List Char
  | [] => []
  | [v] => v
  | v :: w :: rest => v ++ '\n' :: joinLines (w :: rest)

namespace FundGo

/-- func NewFundResult of the older src/Fund.go (lines 41-46): identical
except that it does not sort the items. -/
def NewFundResult (items : List FundItem) : FundResult :=
  let base : FundResult := { Funds := items, Avg := GoFloat.val 0 }
  { Funds := base.Funds, Avg := base.avg }

/-- func GetFundResult of the older src/Fund.go (lines 116-124): a plain
sequential loop, items in request order, no concurrency. -/
def GetFundResult (fetch : String → Fund) (fundIds : List FundId) : FundResult :=
  NewFundResult (fundIds.map (toFundItem fetch))

end FundGo

/-! ### The two accumulators as sums -/

theorem foldl_add_eq (g : α → ℚ) (c : ℚ) (l : List α) :
    l.foldl (fun a f => a + g f) c = c + (l.map g).sum := by
  induction l generalizing c with
  | nil => simp
  | cons x xs ih => simp [ih, add_assoc]

theorem totalZzl_eq (l : List FundItem) :
    totalZzl l = (l.map (fun f => f.Zzl * f.Weight)).sum := by
  simpa using foldl_add_eq (fun f => f.Zzl * f.Weight) 0 l

theorem totalWeight_eq (l : List FundItem) :
    totalWeight l = (l.map (fun f => f.Weight)).sum := by
  simpa using foldl_add_eq (fun f => f.Weight) 0 l

theorem totalZzl_perm {l l' : List FundItem} (h : List.Perm l l') :
    totalZzl l = totalZzl l' := by
  rw [totalZzl_eq, totalZzl_eq]
  exact (h.map _).sum_eq

theorem totalWeight_perm {l l' : List FundItem} (h : List.Perm l l') :
    totalWeight l = totalWeight l' := by
  rw [totalWeight_eq, totalWeight_eq]
  exact (h.map _).sum_eq

/-! ### The sort model permutes its input -/

theorem bubble_perm (lt : α → α → Bool) (x : α) (l : List α) :
    List.Perm (bubble lt x l) (x :: l) := by
  induction l with
  | nil => exact List.Perm.refl _
  | cons e rest ih =>
      cases hx : lt x e with
      | false => simp [bubble, hx]
      | true =>
          simp only [bubble, hx, if_true]
          exact (ih.cons e).trans (List.Perm.swap x e rest)

theorem insertRight_perm (lt : α → α → Bool) (x : α) (acc : List α) :
    List.Perm (insertRight lt x acc) (x :: acc) :=
  ((bubble lt x acc.reverse).reverse_perm).trans
    ((bubble_perm lt x acc.reverse).trans ((acc.reverse_perm).cons x))

theorem sortLoop_perm (lt : α → α → Bool) (xs acc : List α) :
    List.Perm (sortLoop lt acc xs) (acc ++ xs) := by
  induction xs generalizing acc with
  | nil => simp [sortLoop]
  | cons x xs ih =>
      have h1 : List.Perm (sortLoop lt acc (x :: xs)) (insertRight lt x acc ++ xs) := ih _
      have h2 : List.Perm (insertRight lt x acc ++ xs) ((x :: acc) ++ xs) :=
        (insertRight_perm lt x acc).append_right xs
      exact (h1.trans h2).trans List.perm_middle.symm

theorem goSort_perm (lt : α → α → Bool) (l : List α) :
    List.Perm (goSort lt l) l := by
  simpa [goSort] using sortLoop_perm lt l []

/-! ### The sort model orders weights descendingly -/

theorem bubble_head_or (lt : α → α → Bool) (x : α) (l : List α) :
    (bubble lt x l).head? = some x ∨ (bubble lt x l).head? = l.head? := by
  cases l with
  | nil => left; rfl
  | cons e rest => cases hx : lt x e <;> simp [bubble, hx]

theorem bubble_chain_le (x : FundItem) (l : List FundItem)
    (h : l.Chain' (fun a b => a.Weight ≤ b.Weight)) :
    (bubble less x l).Chain' (fun a b => a.Weight ≤ b.Weight) := by
  induction l with
  | nil => simp [bubble]
  | cons e rest ih =>
      cases hx : less x e with
      | false =>
          simp only [bubble, hx, Bool.false_eq_true, if_false]
          have hlt : ¬ e.Weight ≤ x.Weight := by simpa [less] using hx
          exact List.chain'_cons.mpr ⟨le_of_lt (not_le.mp hlt), h⟩
      | true =>
          simp only [bubble, hx, if_true]
          have hle : e.Weight ≤ x.Weight := by simpa [less] using hx
          refine List.chain'_cons'.mpr ⟨?_, ih h.tail⟩
          intro y hy
          rcases bubble_head_or less x rest with hh | hh
          · rw [hh] at hy
            simp only [Option.mem_def, Option.some.injEq] at hy
            exact hy ▸ hle
          · rw [hh] at hy
            exact (List.chain'_cons'.mp h).1 y hy

theorem insertRight_chain (x : FundItem) (acc : List FundItem)
    (h : acc.Chain' (fun a b => b.Weight ≤ a.Weight)) :
    (insertRight less x acc).Chain' (fun a b => b.Weight ≤ a.Weight) := by
  have h1 : acc.reverse.Chain' (fun a b => a.Weight ≤ b.Weight) :=
    List.chain'_reverse.mpr h
  have h2 := bubble_chain_le x acc.reverse h1
  exact List.chain'_reverse.mpr h2

theorem sortLoop_chain (xs acc : List FundItem)
    (h : acc.Chain' (fun a b => b.Weight ≤ a.Weight)) :
    (sortLoop less acc xs).Chain' (fun a b => b.Weight ≤ a.Weight) := by
  induction xs generalizing acc with
  | nil => exact h
  | cons x xs ih => exact ih _ (insertRight_chain x acc h)

theorem goSort_chain (l : List FundItem) :
    (goSort less l).Chain' (fun a b => b.Weight ≤ a.Weight) :=
  sortLoop_chain l [] List.chain'_nil

/-! ### Unfolding NewFundResult -/

theorem NewFundResult_Funds (items : List FundItem) :
    (NewFundResult items).Funds = goSort less items := rfl

theorem NewFundResult_Avg (items : List FundItem) :
    (NewFundResult items).Avg =
      fdiv (totalZzl (goSort less items)) (totalWeight (goSort less items)) := rfl

theorem NewFundResult_Avg_input (items : List FundItem) :
    (NewFundResult items).Avg = fdiv (totalZzl items) (totalWeight items) := by
  rw [NewFundResult_Avg, totalZzl_perm (goSort_perm less items),
    totalWeight_perm (goSort_perm less items)]

theorem FundGo_GetFundResult_Funds (fetch : String → Fund) (fundIds : List FundId) :
    (FundGo.GetFundResult fetch fundIds).Funds = fundIds.map (toFundItem fetch) := rfl

theorem FundGo_GetFundResult_Avg (fetch : String → Fund) (fundIds : List FundId) :
    (FundGo.GetFundResult fetch fundIds).Avg =
      fdiv (totalZzl (fundIds.map (toFundItem fetch)))
        (totalWeight (fundIds.map (toFundItem fetch))) := rfl

/-! ### Splitting lemmas for the config parser -/

theorem splitOnCharCore_not_mem (sep : Char) (cs : List Char) (h : sep ∉ cs) :
    splitOnCharCore sep cs = (cs, []) := by
  induction cs with
  | nil => rfl
  | cons c rest ih =>
      simp only [List.mem_cons, not_or] at h
      simp [splitOnCharCore, ih h.2, Ne.symm h.1]

theorem splitOnChar_not_mem (sep : Char) (cs : List Char) (h : sep ∉ cs) :
    splitOnChar sep cs = [cs] := by
  simp [splitOnChar, splitOnCharCore_not_mem sep cs h]

theorem splitOnCharCore_append (sep : Char) (xs ys : List Char) (h : sep ∉ xs) :
    splitOnCharCore sep (xs ++ sep :: ys) = (xs, splitOnChar sep ys) := by
  induction xs with
  | nil => simp [splitOnCharCore, splitOnChar]
  | cons c rest ih =>
      simp only [List.mem_cons, not_or] at h
      simp [splitOnCharCore, ih h.2, Ne.symm h.1]

theorem splitOnChar_append (sep : Char) (xs ys : List Char) (h : sep ∉ xs) :
    splitOnChar sep (xs ++ sep :: ys) = xs :: splitOnChar sep ys := by
  simp [splitOnChar, splitOnCharCore_append sep xs ys h]

theorem splitOnChar_joinLines (lines : List (List Char)) (hne : lines ≠ [])
    (h : ∀ v ∈ lines, '\n' ∉ v) :
    splitOnChar '\n' (joinLines lines) = lines := by
  induction lines with
  | nil => exact absurd rfl hne
  | cons v rest ih =>
      cases rest with
      | nil => simpa [joinLines] using splitOnChar_not_mem '\n' v (h v (by simp))
      | cons w rs =>
          have hv : '\n' ∉ v := h v (by simp)
          have htail : ∀ u ∈ w :: rs, '\n' ∉ u := fun u hu => h u (by simp [hu])
          simp only [joinLines]
          rw [splitOnChar_append '\n' v (joinLines (w :: rs)) hv,
            ih (by simp) htail]

theorem splitOnCharCore_snd_ne (sep : Char) (cs : List Char) (h : sep ∈ cs) :
    (splitOnCharCore sep cs).2 ≠ [] := by
  induction cs with
  | nil => simp at h
  | cons c rest ih =>
      by_cases hc : c = sep
      · simp [splitOnCharCore, hc]
      · have hrest : sep ∈ rest := by
          rcases List.mem_cons.mp h with h1 | h1
          · exact absurd h1.symm hc
          · exact h1
        simp [splitOnCharCore, hc, ih hrest]

theorem parseLine_isSome (v : List Char) (h : ',' ∈ v) :
    ∃ x, parseLine v = some x := by
  have h2 := splitOnCharCore_snd_ne ',' v h
  rw [parseLine, splitOnChar]
  cases hsnd : (splitOnCharCore ',' v).2 with
  | nil => exact absurd hsnd h2
  | cons b t => exact ⟨_, rfl⟩

theorem parseLine_no_comma (v : List Char) (h : ',' ∉ v) :
    parseLine v = none := by
  rw [parseLine, splitOnChar_not_mem ',' v h]

theorem loadLines_total (lines : List (List Char))
    (h : ∀ v ∈ lines, v ≠ [] → ∃ x, parseLine v = some x) :
    ∃ l, loadLines lines = some l ∧
      l.length = (lines.filter (fun v => !v.isEmpty)).length := by
  induction lines with
  | nil => exact ⟨[], rfl, rfl⟩
  | cons v rest ih =>
      obtain ⟨l, hl, hlen⟩ := ih (fun w hw => h w (by simp [hw]))
      by_cases hv : v = []
      · subst hv
        exact ⟨l, by simpa [loadLines] using hl, by simpa using hlen⟩
      · obtain ⟨x, hx⟩ := h v (by simp) hv
        refine ⟨x :: l, ?_, ?_⟩
        · simp [loadLines, hv, hx, hl]
        · simpa [List.filter_cons, hv] using hlen

/-! ### Claims -/

/-- C1: for every sequence of WeightedQuote items with nonzero weight sum,
the Avg field of the Report returned by NewFundResult equals
sum(parse_float(item.changePercent, default 0) * item.weight) divided by
sum(item.weight), the weighted mean of its input items. -/
theorem claim_C1_avg_weighted_mean (items : List FundItem)
    (h : totalWeight items ≠ 0) :
    (NewFundResult items).Avg =
      GoFloat.val ((items.map (fun i => i.Zzl * i.Weight)).sum
        / (items.map (fun i => i.Weight)).sum) := by
  rw [NewFundResult_Avg_input]
  rw [totalWeight_eq] at h
  simp [fdiv, totalZzl_eq, totalWeight_eq, h]

/-- Witness for C1 at the spec's synthetic input: changePercent "1.0" with
weight 2 and "3.0" with weight 1. -/
theorem claim_C1_witness :
    totalWeight [⟨⟨ "f1", "n1", "t", "1.0"⟩, 2⟩, ⟨⟨ "f2", "n2", "t", "3.0"⟩, 1⟩] ≠ 0 ∧
    (NewFundResult [⟨⟨ "f1", "n1", "t", "1.0"⟩, 2⟩, ⟨⟨ "f2", "n2", "t", "3.0"⟩, 1⟩]).Avg =
      GoFloat.val
        (([⟨⟨ "f1", "n1", "t", "1.0"⟩, 2⟩,
            (⟨⟨ "f2", "n2", "t", "3.0"⟩, 1⟩ : FundItem)].map (fun i => i.Zzl * i.Weight)).sum
          / ([⟨⟨ "f1", "n1", "t", "1.0"⟩, 2⟩,
              (⟨⟨ "f2", "n2", "t", "3.0"⟩, 1⟩ : FundItem)].map (fun i => i.Weight)).sum) := by
  have hw : totalWeight [⟨⟨ "f1", "n1", "t", "1.0"⟩, 2⟩, ⟨⟨ "f2", "n2", "t", "3.0"⟩, 1⟩] ≠ 0 := by
    norm_num [totalWeight]
  exact ⟨hw, claim_C1_avg_weighted_mean _ hw⟩

/-- C10: the Funds sequence of the Report is a permutation of the input
(the sort drops, duplicates and modifies nothing), and the Avg field is
invariant under any reordering of the input items. -/
theorem claim_C10_perm_and_avg_invariant (items : List FundItem) :
    List.Perm (NewFundResult items).Funds items ∧
    ∀ other : List FundItem, List.Perm other items →
      (NewFundResult other).Avg = (NewFundResult items).Avg := by
  constructor
  · rw [NewFundResult_Funds]
    exact goSort_perm less items
  · intro other hp
    rw [NewFundResult_Avg_input, NewFundResult_Avg_input,
      totalZzl_perm hp, totalWeight_perm hp]

/-- Witness for C10 at a two-item input and its reversal. -/
theorem claim_C10_witness :
    List.Perm
      (NewFundResult [⟨⟨ "f1", "n1", "t", "1.0"⟩, 2⟩, ⟨⟨ "f2", "n2", "t", "3.0"⟩, 1⟩]).Funds
      [⟨⟨ "f1", "n1", "t", "1.0"⟩, 2⟩, ⟨⟨ "f2", "n2", "t", "3.0"⟩, 1⟩] ∧
    (NewFundResult [⟨⟨ "f2", "n2", "t", "3.0"⟩, 1⟩, ⟨⟨ "f1", "n1", "t", "1.0"⟩, 2⟩]).Avg =
      (NewFundResult [⟨⟨ "f1", "n1", "t", "1.0"⟩, 2⟩, ⟨⟨ "f2", "n2", "t", "3.0"⟩, 1⟩]).Avg :=
  ⟨(claim_C10_perm_and_avg_invariant _).1,
    (claim_C10_perm_and_avg_invariant _).2 _
      (List.Perm.swap (⟨⟨ "f1", "n1", "t", "1.0"⟩, 2⟩ : FundItem)
        (⟨⟨ "f2", "n2", "t", "3.0"⟩, 1⟩ : FundItem) [])⟩

/-- C4: when all weights are pairwise distinct, the Funds sequence of the
Report produced by NewFundResult is sorted in strictly descending order of
weight. -/
theorem claim_C4_sorted_descending (items : List FundItem)
    (h : items.Pairwise (fun a b => a.Weight ≠ b.Weight)) :
    (NewFundResult items).Funds.Pairwise (fun a b => b.Weight < a.Weight) := by
  haveI : IsTrans FundItem (fun a b => b.Weight ≤ a.Weight) :=
    ⟨fun _ _ _ h1 h2 => le_trans h2 h1⟩
  have hp : (goSort less items).Pairwise (fun a b => b.Weight ≤ a.Weight) :=
    List.chain'_iff_pairwise.mp (goSort_chain items)
  have hne : (goSort less items).Pairwise (fun a b => a.Weight ≠ b.Weight) :=
    ((goSort_perm less items).pairwise_iff (fun hab => Ne.symm hab)).mpr h
  rw [NewFundResult_Funds]
  exact (hp.and hne).imp (fun hab => lt_of_le_of_ne hab.1 hab.2.symm)

/-- Witness for C4 at a concrete two-item input with distinct weights. -/
theorem claim_C4_witness :
    ([⟨⟨ "f1", "n1", "t", "1.0"⟩, 1⟩,
      (⟨⟨ "f2", "n2", "t", "3.0"⟩, 2⟩ : FundItem)]).Pairwise
        (fun a b => a.Weight ≠ b.Weight) ∧
    (NewFundResult [⟨⟨ "f1", "n1", "t", "1.0"⟩, 1⟩,
      ⟨⟨ "f2", "n2", "t", "3.0"⟩, 2⟩]).Funds.Pairwise
        (fun a b => b.Weight < a.Weight) := by
  have h : ([⟨⟨ "f1", "n1", "t", "1.0"⟩, 1⟩,
      (⟨⟨ "f2", "n2", "t", "3.0"⟩, 2⟩ : FundItem)]).Pairwise
        (fun a b => a.Weight ≠ b.Weight) := by decide
  exact ⟨h, claim_C4_sorted_descending _ h⟩

/-- C3 fails on the code: at the spec's own scenario — two items whose
weights are both zero — the unguarded division in avg yields NaN (the
0.0/0.0 of IEEE-754); no DivisionByZero-class error is signalled anywhere
in NewFundResult or avg. -/
theorem claim_C3_counterexample :
    (NewFundResult [⟨⟨ "f1", "", "", "1.0"⟩, 0⟩, ⟨⟨ "f2", "", "", "3.0"⟩, 0⟩]).Avg
      = GoFloat.nan := by
  rw [NewFundResult_Avg_input]
  have h1 : totalWeight [⟨⟨ "f1", "", "", "1.0"⟩, 0⟩, ⟨⟨ "f2", "", "", "3.0"⟩, 0⟩] = 0 := by
    simp [totalWeight]
  have h2 : totalZzl [⟨⟨ "f1", "", "", "1.0"⟩, 0⟩, ⟨⟨ "f2", "", "", "3.0"⟩, 0⟩] = 0 := by
    simp [totalZzl]
  rw [h1, h2]
  simp [fdiv]

/-- C3 amended: when the weight sum is exactly zero the Aggregator signals
nothing — the Report's Avg is the non-finite float of the unguarded
division (NaN when the weighted total is also zero, ±Inf otherwise). -/
theorem claim_C3_amended_nonfinite (items : List FundItem)
    (h : totalWeight items = 0) :
    ((NewFundResult items).Avg).isFinite = false := by
  rw [NewFundResult_Avg_input, h, fdiv]
  simp only [if_pos rfl]
  split_ifs <;> rfl

/-- Witness for the amended C3 at two items of weight zero. -/
theorem claim_C3_amended_witness :
    totalWeight [⟨⟨ "f1", "", "", "1.0"⟩, 0⟩, ⟨⟨ "f2", "", "", "3.0"⟩, 0⟩] = 0 ∧
    ((NewFundResult [⟨⟨ "f1", "", "", "1.0"⟩, 0⟩,
        ⟨⟨ "f2", "", "", "3.0"⟩, 0⟩]).Avg).isFinite = false := by
  have h : totalWeight [⟨⟨ "f1", "", "", "1.0"⟩, 0⟩, ⟨⟨ "f2", "", "", "3.0"⟩, 0⟩] = 0 := by
    simp [totalWeight]
  exact ⟨h, claim_C3_amended_nonfinite _ h⟩

/-- C5 fails on the code: two distinct items with equal weight come out of
NewFundResult in the reverse of their input order — the insertion step of
Go's sort moves an item past earlier items of equal weight because the
comparator items[i].Weight >= items[j].Weight is non-strict. -/
theorem claim_C5_counterexample :
    ((⟨⟨ "A", "", "", "1.0"⟩, 1⟩ : FundItem).Weight
        = (⟨⟨ "B", "", "", "2.0"⟩, 1⟩ : FundItem).Weight) ∧
    (⟨⟨ "A", "", "", "1.0"⟩, 1⟩ : FundItem) ≠ ⟨⟨ "B", "", "", "2.0"⟩, 1⟩ ∧
    (NewFundResult [⟨⟨ "A", "", "", "1.0"⟩, 1⟩, ⟨⟨ "B", "", "", "2.0"⟩, 1⟩]).Funds
      = [⟨⟨ "B", "", "", "2.0"⟩, 1⟩, ⟨⟨ "A", "", "", "1.0"⟩, 1⟩] := by
  refine ⟨rfl, by decide, ?_⟩
  rw [NewFundResult_Funds]
  simp [goSort, sortLoop, insertRight, bubble, less]

/-- C5 amended: the sort is not stable; with the non-strict comparator the
insertion sort that sort.Slice runs on small slices reverses equal-weight
runs — for any two items of equal weight the output order is the reverse
of the input order (and Go documents sort.Slice as unstable in general). -/
theorem claim_C5_amended_ties_reversed (a b : FundItem)
    (h : a.Weight = b.Weight) :
    (NewFundResult [a, b]).Funds = [b, a] := by
  rw [NewFundResult_Funds]
  simp [goSort, sortLoop, insertRight, bubble, less, h]

/-- Witness for the amended C5 at two concrete equal-weight items. -/
theorem claim_C5_amended_witness :
    ((⟨⟨ "A", "", "", "1.0"⟩, 1⟩ : FundItem).Weight
        = (⟨⟨ "B", "", "", "2.0"⟩, 1⟩ : FundItem).Weight) ∧
    (NewFundResult [⟨⟨ "A", "", "", "1.0"⟩, 1⟩, ⟨⟨ "B", "", "", "2.0"⟩, 1⟩]).Funds
      = [⟨⟨ "B", "", "", "2.0"⟩, 1⟩, ⟨⟨ "A", "", "", "1.0"⟩, 1⟩] :=
  ⟨rfl, claim_C5_amended_ties_reversed _ _ rfl⟩

/-- C7: a WeightedQuote whose changePercent string fails numeric parsing
contributes 0 to the weighted sum: Zzl returns 0 (the parse error is
dropped, not fatal) and the item's term in the total is 0. -/
theorem claim_C7_parse_failure_is_zero (p : FundItem)
    (h : parseFloatQ p.GSZZL = none) :
    p.Zzl = 0 ∧ p.Zzl * p.Weight = 0 := by
  have hz : p.Zzl = 0 := by rw [FundItem.Zzl, h]; rfl
  exact ⟨hz, by rw [hz, zero_mul]⟩

/-- Witness for C7 at the empty changePercent string. -/
theorem claim_C7_witness :
    parseFloatQ (⟨⟨ "f", "n", "t", ""⟩, 5⟩ : FundItem).GSZZL = none ∧
    (⟨⟨ "f", "n", "t", ""⟩, 5⟩ : FundItem).Zzl = 0 ∧
    (⟨⟨ "f", "n", "t", ""⟩, 5⟩ : FundItem).Zzl
      * (⟨⟨ "f", "n", "t", ""⟩, 5⟩ : FundItem).Weight = 0 := by
  have h : parseFloatQ (⟨⟨ "f", "n", "t", ""⟩, 5⟩ : FundItem).GSZZL = none := rfl
  exact ⟨h, claim_C7_parse_failure_is_zero _ h⟩

/-- C2: for every sequence of K requests, every Report the concurrent
coordinator GetFundResult can return (any goroutine completion order) has
exactly K items in Funds — one WeightedQuote per request, with none lost
and none duplicated (Funds is a permutation of the fetched requests). -/
theorem claim_C2_exactly_one_item_per_request (fetch : String → Fund)
    (fundIds : List FundId) (r : FundResult)
    (h : GetFundResultPossible fetch fundIds r) :
    r.Funds.length = fundIds.length ∧
    List.Perm r.Funds (fundIds.map (toFundItem fetch)) := by
  obtain ⟨completion, hperm, hr⟩ := h
  subst hr
  have h1 : List.Perm (NewFundResult (completion.map (toFundItem fetch))).Funds
      (completion.map (toFundItem fetch)) := by
    rw [NewFundResult_Funds]
    exact goSort_perm _ _
  have h2 := hperm.map (toFundItem fetch)
  refine ⟨?_, h1.trans h2⟩
  rw [(h1.trans h2).length_eq, List.length_map]

/-- Witness for C2: two requests completing in reversed order. -/
theorem claim_C2_witness :
    GetFundResultPossible (fun id => ⟨ id, "n", "t", "1.0"⟩) [⟨ "a", 1⟩, ⟨ "b", 2⟩]
      (NewFundResult ([⟨ "b", 2⟩, ⟨ "a", 1⟩].map
        (toFundItem (fun id => ⟨ id, "n", "t", "1.0"⟩)))) ∧
    (NewFundResult ([⟨ "b", 2⟩, ⟨ "a", 1⟩].map
        (toFundItem (fun id => ⟨ id, "n", "t", "1.0"⟩)))).Funds.length
      = ([⟨ "a", 1⟩, (⟨ "b", 2⟩ : FundId)]).length ∧
    List.Perm
      (NewFundResult ([⟨ "b", 2⟩, ⟨ "a", 1⟩].map
        (toFundItem (fun id => ⟨ id, "n", "t", "1.0"⟩)))).Funds
      ([⟨ "a", 1⟩, (⟨ "b", 2⟩ : FundId)].map
        (toFundItem (fun id => ⟨ id, "n", "t", "1.0"⟩))) := by
  have h : GetFundResultPossible (fun id => ⟨ id, "n", "t", "1.0"⟩)
      [⟨ "a", 1⟩, ⟨ "b", 2⟩]
      (NewFundResult ([⟨ "b", 2⟩, ⟨ "a", 1⟩].map
        (toFundItem (fun id => ⟨ id, "n", "t", "1.0"⟩)))) :=
    ⟨[⟨ "b", 2⟩, ⟨ "a", 1⟩], List.Perm.swap (⟨ "a", 1⟩ : FundId) (⟨ "b", 2⟩ : FundId) [], rfl⟩
  exact ⟨h, claim_C2_exactly_one_item_per_request _ _ _ h⟩

/-- C6 fails on the code: with the same requests and the same fetched
quotes, the Report of main.go's GetFundResult (here: the one its concurrent
code returns when completion order is the request order) has its items
sorted descending by weight, while src/Fund.go's GetFundResult keeps the
request order — the two Funds sequences differ, so the FundResult values
are not equal. -/
theorem claim_C6_counterexample :
    GetFundResultPossible (fun id => ⟨ id, "n", "t", "1.0"⟩) [⟨ "a", 1⟩, ⟨ "b", 2⟩]
      (NewFundResult ([⟨ "a", 1⟩, ⟨ "b", 2⟩].map
        (toFundItem (fun id => ⟨ id, "n", "t", "1.0"⟩)))) ∧
    (NewFundResult ([⟨ "a", 1⟩, ⟨ "b", 2⟩].map
        (toFundItem (fun id => ⟨ id, "n", "t", "1.0"⟩)))).Funds
      ≠ (FundGo.GetFundResult (fun id => ⟨ id, "n", "t", "1.0"⟩)
          [⟨ "a", 1⟩, ⟨ "b", 2⟩]).Funds := by
  refine ⟨⟨_, List.Perm.refl _, rfl⟩, ?_⟩
  rw [NewFundResult_Funds, FundGo_GetFundResult_Funds]
  simp [goSort, sortLoop, insertRight, bubble, less, toFundItem]

/-- C6 amended: the two implementations agree on Avg, and their items
sequences agree as multisets (are permutations of one another); they differ
only in order, main.go sorting descending by weight while src/Fund.go keeps
request order. -/
theorem claim_C6_amended_avg_eq_items_perm (fetch : String → Fund)
    (fundIds : List FundId) (r : FundResult)
    (h : GetFundResultPossible fetch fundIds r) :
    r.Avg = (FundGo.GetFundResult fetch fundIds).Avg ∧
    List.Perm r.Funds (FundGo.GetFundResult fetch fundIds).Funds := by
  obtain ⟨completion, hperm, hr⟩ := h
  subst hr
  have hmap := hperm.map (toFundItem fetch)
  constructor
  · rw [NewFundResult_Avg_input, FundGo_GetFundResult_Avg,
      totalZzl_perm hmap, totalWeight_perm hmap]
  · rw [NewFundResult_Funds, FundGo_GetFundResult_Funds]
    exact (goSort_perm _ _).trans hmap

/-- Witness for the amended C6 at two concrete requests fetched in
reversed completion order. -/
theorem claim_C6_amended_witness :
    (NewFundResult ([⟨ "y", 3⟩, ⟨ "x", 1⟩].map
        (toFundItem (fun id => ⟨ id, "n", "t", "2.0"⟩)))).Avg
      = (FundGo.GetFundResult (fun id => ⟨ id, "n", "t", "2.0"⟩)
          [⟨ "x", 1⟩, ⟨ "y", 3⟩]).Avg ∧
    List.Perm
      (NewFundResult ([⟨ "y", 3⟩, ⟨ "x", 1⟩].map
        (toFundItem (fun id => ⟨ id, "n", "t", "2.0"⟩)))).Funds
      (FundGo.GetFundResult (fun id => ⟨ id, "n", "t", "2.0"⟩)
        [⟨ "x", 1⟩, ⟨ "y", 3⟩]).Funds :=
  claim_C6_amended_avg_eq_items_perm _ _ _
    ⟨[⟨ "y", 3⟩, ⟨ "x", 1⟩],
      List.Perm.swap (⟨ "x", 1⟩ : FundId) (⟨ "y", 3⟩ : FundId) [], rfl⟩

/-- C8: LoadFundIds ignores blank lines; an empty (or absent, read as "")
resource yields the empty sequence; every resource whose non-blank lines
each contain a comma loads successfully with exactly one FundId per
non-blank line; and a line whose weight field fails to parse yields that
line's FundId with weight 0 (the id still parsed) rather than a failure. -/
theorem claim_C8_config_tolerance :
    LoadFundIds "" = some [] ∧
    (∀ lines : List (List Char), lines ≠ [] → (∀ v ∈ lines, '\n' ∉ v) →
      (∀ v ∈ lines, v ≠ [] → ',' ∈ v) →
      ∃ l, LoadFundIds (String.mk (joinLines lines)) = some l ∧
        l.length = (lines.filter (fun v => !v.isEmpty)).length) ∧
    (∀ a b : List Char, ',' ∉ a → ',' ∉ b → parseFloatQ (String.mk b) = none →
      parseLine (a ++ ',' :: b) = some ⟨String.mk a, 0⟩) := by
  refine ⟨rfl, ?_, ?_⟩
  · intro lines hne hnl hcomma
    obtain ⟨l, hl, hlen⟩ :=
      loadLines_total lines (fun v hv hvne => parseLine_isSome v (hcomma v hv hvne))
    refine ⟨l, ?_, hlen⟩
    show loadLines (splitOnChar '\n' (String.mk (joinLines lines)).toList) = some l
    rw [show (String.mk (joinLines lines)).toList = joinLines lines from rfl,
      splitOnChar_joinLines lines hne hnl]
    exact hl
  · intro a b ha hb hpf
    have h1 : splitOnChar ',' (a ++ ',' :: b) = [a, b] := by
      rw [splitOnChar_append ',' a b ha, splitOnChar_not_mem ',' b hb]
    simp [parseLine, h1, hpf]

/-- Witness for C8: a blank line and a malformed weight among valid lines. -/
theorem claim_C8_witness :
    (∃ l, LoadFundIds (String.mk (joinLines
        [ "a,1".toList, [], "b,xyz".toList, "c,2".toList])) = some l ∧
      l.length = ([ "a,1".toList, [], "b,xyz".toList, "c,2".toList].filter
        (fun v => !v.isEmpty)).length) ∧
    parseLine ( "b".toList ++ ',' :: "xyz".toList)
      = some ⟨String.mk ( "b".toList), 0⟩ := by
  refine ⟨claim_C8_config_tolerance.2.1 _ (by decide) (by decide) (by decide),
    claim_C8_config_tolerance.2.2 ( "b".toList) ( "xyz".toList)
      (by decide) (by decide) rfl⟩

/-- C9 fails on the code: a non-empty line containing no comma splits into
a single field, so the unguarded access to the second field i[1] is out of
range — on the resource "abc" the split's length is 1 (index 1 is out of
bounds) and the load aborts (none models the Go run-time panic); the line
is not silently dropped. -/
theorem claim_C9_counterexample :
    ¬ 1 < (splitOnChar ',' ( "abc".toList)).length ∧
    ( "abc" : String) ≠ "" ∧ ',' ∉ "abc".toList ∧
    LoadFundIds "abc" = none := by
  refine ⟨by decide, by decide, by decide, rfl⟩

/-- C9 amended: for every non-empty comma-free line the split on "," has
exactly one field, so the i[1] access is out of range: loading a resource
holding that line aborts with the panic (none), the line is not dropped. -/
theorem claim_C9_amended_index_out_of_range (v : List Char)
    (hne : v ≠ []) (hc : ',' ∉ v) (hn : '\n' ∉ v) :
    (splitOnChar ',' v).length = 1 ∧ LoadFundIds (String.mk v) = none := by
  constructor
  · rw [splitOnChar_not_mem ',' v hc]
    rfl
  · show loadLines (splitOnChar '\n' (String.mk v).toList) = none
    rw [show (String.mk v).toList = v from rfl, splitOnChar_not_mem '\n' v hn]
    simp [loadLines, hne, parseLine_no_comma v hc]

/-- Witness for the amended C9 at the line "abc". -/
theorem claim_C9_amended_witness :
    (splitOnChar ',' ( "abc".toList)).length = 1 ∧
    LoadFundIds (String.mk ( "abc".toList)) = none :=
  claim_C9_amended_index_out_of_range ( "abc".toList)
    (by decide) (by decide) (by decide)

end FundWatcher
